import Mathlib

/-!
Verification of the deployment-bootstrap utility: environment-file loading,
database-provider detection, platform path resolution, schema-template
rewriting, and the tool-runner control flow.

The JavaScript sources are shallowly embedded:
* process environment maps become functions `String → Option String`
  (`none` = variable absent); JavaScript truthiness of a string value is
  `value present and non-empty`;
* `.env`-file text and schema-template text become `List Char`;
* the three regular expressions used by `generate-schema.cjs` are embedded
  as explicit pattern lists with JavaScript `replace` semantics (leftmost
  match; non-global replaces the first match, global replaces all
  non-overlapping matches scanning left to right);
* child processes become explicit outcome parameters and the tool runner
  returns a trace recording which children ran and the final exit code.
-/

/-- Process environment: variable name to value, `none` when absent. -/
def EnvMap : Type := String → Option String

/-- Assignment `process.env[key] = val`. -/
def setEnv (env : EnvMap) (key val : String) : EnvMap :=
  fun k => if k = key then some val else env k

/-- JavaScript truthiness of an (optional) string: present and non-empty. -/
def truthy : Option String → Bool
  | none => false
  | some s => !(s == "")

/-- JavaScript `String.prototype.startsWith`, over character lists. -/
def jsStartsWith (s pre : String) : Bool :=
  pre.data.isPrefixOf s.data

/-- Whitespace class of JavaScript regular expressions and `trim`
(ASCII whitespace plus NBSP and BOM; the rare exotic Unicode space
code points are omitted, no claim depends on them). -/
def isJsWs (c : Char) : Bool :=
  c = ' ' || c = '\t' || c = '\n' || c = '\r' ||
  c = Char.ofNat 11 || c = Char.ofNat 12 || c = Char.ofNat 160 || c = Char.ofNat 65279

/-- JavaScript `String.prototype.trim` on a character list. -/
def jsTrim (l : List Char) : List Char :=
  ((l.dropWhile isJsWs).reverse.dropWhile isJsWs).reverse

/-- Strip one matching pair of surrounding quotes, as in the `.env` loaders:
`if ((value.startsWith('"') && value.endsWith('"')) || (value.startsWith("'")
&& value.endsWith("'"))) value = value.slice(1, -1)`.  A single-quote-character
string satisfies the test (head and last coincide) and becomes empty, exactly
as `slice(1, -1)` does. -/
def stripQuotes (v : List Char) : List Char :=
  if (v.head? = some '"' ∧ v.getLast? = some '"') ∨
     (v.head? = some (Char.ofNat 39) ∧ v.getLast? = some (Char.ofNat 39)) then
    (v.drop 1).dropLast
  else v

/-- Split a line at its first `=`: the key part (chars before the first `=`)
and the value part (everything after).  `none` when the line has no `=`.
This is the match of `^([^=]+)=(.*)$` up to the non-emptiness of the key,
which `parseLine` checks separately. -/
def splitAtEq : List Char → Option (List Char × List Char)
  | [] => none
  | c :: rest =>
    if c = '=' then some ([], rest)
    else (splitAtEq rest).map (fun kv => (c :: kv.1, kv.2))

/-- One line of the `.env` parser in `loadEnvFile`: skip the line when it is
empty or its trimmed form starts with `#` or it does not match
`^([^=]+)=(.*)$`; otherwise produce the trimmed key and the trimmed,
quote-stripped value. -/
def parseLine (line : List Char) : Option (String × String) :=
  if line = [] then none
  else if (jsTrim line).head? = some '#' then none
  else
    match splitAtEq line with
    | none => none
    | some kv =>
      if kv.1 = [] then none
      else some (String.mk (jsTrim kv.1), String.mk (stripQuotes (jsTrim kv.2)))

/-- Effect of one `.env` line on the process environment: set the variable
only when its current value is falsy (`if (!process.env[key])`). -/
def processLine (env : EnvMap) (line : List Char) : EnvMap :=
  match parseLine line with
  | none => env
  | some kv => if truthy (env kv.1) then env else setEnv env kv.1 kv.2

/-- Accumulator form of splitting file text on `'\n'`. -/
def splitLinesAux : List Char → List Char → List (List Char)
  | acc, [] => [acc.reverse]
  | acc, c :: rest =>
    if c = '\n' then acc.reverse :: splitLinesAux [] rest
    else splitLinesAux (c :: acc) rest

/-- JavaScript `content.split('\n')` on a character list. -/
def splitLines (content : List Char) : List (List Char) :=
  splitLinesAux [] content

/-- `loadEnvFile` of `prisma-env.cjs` / `generate-schema.cjs` applied to the
text of an existing `.env` file (when the file is absent the function leaves
the environment untouched, which is the identity and needs no model). -/
def loadEnvFile (content : List Char) (env : EnvMap) : EnvMap :=
  (splitLines content).foldl processLine env

namespace PrismaEnv

/-- `getDatabaseProvider` of `prisma-env.cjs`: classify
`process.env.DATABASE_URL` (`databaseUrl && databaseUrl.startsWith('postgresql://')`). -/
def getDatabaseProvider (databaseUrl : Option String) : String :=
  match databaseUrl with
  | none => "sqlite"
  | some u => if u = "" then "sqlite"
    else if jsStartsWith u "postgresql://" then "postgresql" else "sqlite"

end PrismaEnv

namespace GenerateSchema

/-- `getDatabaseProvider` of `generate-schema.cjs`, duplicated verbatim from
`prisma-env.cjs` in the source. -/
def getDatabaseProvider (databaseUrl : Option String) : String :=
  match databaseUrl with
  | none => "sqlite"
  | some u => if u = "" then "sqlite"
    else if jsStartsWith u "postgresql://" then "postgresql" else "sqlite"

end GenerateSchema

namespace Postinstall

/-- `isCloudMode` of the postinstall script: the truthiness of
`databaseUrl && databaseUrl.startsWith('postgresql://')`. -/
def isCloudMode (databaseUrl : Option String) : Bool :=
  match databaseUrl with
  | none => false
  | some u => if u = "" then false else jsStartsWith u "postgresql://"

end Postinstall

/-- The three branches of `process.platform` that `getDatabaseDirectory`
distinguishes; `generic` is the final `else` (generic Unix). -/
inductive Platform where
  | darwin
  | win32
  | generic

/-- `path.join` of two segments, modeled as separator concatenation
(POSIX separator; `..`-normalization is not modeled, no claim exercises it). -/
def joinPath (a b : String) : String := a ++ "/" ++ b

/-- `getDatabaseDirectory` of `prisma-env.cjs`: the platform-specific
application data directory, namespaced `OnlyLabs`, plus the `database`
segment.  On win32 the `APPDATA` environment value is honored when truthy. -/
def getDatabaseDirectory (platform : Platform) (home : String) (appdata : Option String) : String :=
  let userDataPath :=
    match platform with
    | Platform.darwin => joinPath (joinPath (joinPath home "Library") "Application Support") "OnlyLabs"
    | Platform.win32 =>
      let base := if truthy appdata then appdata.getD "" else joinPath (joinPath home "AppData") "Roaming"
      joinPath base "OnlyLabs"
    | Platform.generic => joinPath (joinPath home ".config") "OnlyLabs"
  joinPath userDataPath "database"

/-- `configureDatabaseEnv` of `prisma-env.cjs`: synthesize a `file:` URL when
`DATABASE_URL` is falsy, set `DATABASE_PROVIDER` from the classification, and
mirror `DATABASE_URL` into `DIRECT_URL` when the provider is postgresql and
`DIRECT_URL` is falsy.  The `mkdirSync` side effect touches no environment
variable and is not modeled. -/
def configureDatabaseEnv (platform : Platform) (home : String) (env : EnvMap) : EnvMap :=
  let env1 :=
    if truthy (env "DATABASE_URL") then env
    else
      setEnv env "DATABASE_URL"
        ("file:" ++ joinPath (getDatabaseDirectory platform home (env "APPDATA")) "dev.db")
  let env2 := setEnv env1 "DATABASE_PROVIDER" (PrismaEnv.getDatabaseProvider (env1 "DATABASE_URL"))
  if truthy (env2 "DIRECT_URL") = false ∧
      PrismaEnv.getDatabaseProvider (env2 "DATABASE_URL") = "postgresql" then
    setEnv env2 "DIRECT_URL" ((env2 "DATABASE_URL").getD "")
  else env2

/-- An element of one of the three regular expressions of
`generate-schema.cjs`: a literal character, the class `\s*`, or an ordered
two-way alternation of literal words. -/
inductive PatElem where
  | lit (c : Char)
  | ws
  | alt2 (a b : List Char)

/-- Length of the maximal whitespace run at the head of the list. -/
def wsCount : List Char → Nat
  | [] => 0
  | c :: s => if isJsWs c then wsCount s + 1 else 0

/-- Match a pattern at the start of `s`, returning the number of characters
consumed.  `\s*` takes the maximal whitespace run: in every pattern of the
source a `\s*` is followed by a non-whitespace literal, for which greedy
matching with backtracking coincides with maximal munch.  `alt2` commits to
the first alternative whose word is a prefix of `s`: in the one alternation
of the source (`postgresql|sqlite`) the alternatives start with distinct
characters, so committing coincides with backtracking. -/
def matchPat : List PatElem → List Char → Option Nat
  | [], _ => some 0
  | PatElem.lit c :: ps, d :: s =>
    if d = c then (matchPat ps s).map (· + 1) else none
  | PatElem.lit _ :: _, [] => none
  | PatElem.ws :: ps, s =>
    (matchPat ps (s.drop (wsCount s))).map (· + wsCount s)
  | PatElem.alt2 a b :: ps, s =>
    if a.isPrefixOf s then (matchPat ps (s.drop a.length)).map (· + a.length)
    else if b.isPrefixOf s then (matchPat ps (s.drop b.length)).map (· + b.length)
    else none

/-- Does the pattern match at some position of `s` (including the empty
suffix position, as JavaScript `RegExp.prototype.test` does)? -/
def hasMatch (pat : List PatElem) : List Char → Bool
  | [] => (matchPat pat []).isSome
  | c :: s => (matchPat pat (c :: s)).isSome || hasMatch pat s

/-- JavaScript `string.replace(/pat/, repl)` for a replacement string free of
`$` patterns: replace the leftmost match, leave the string unchanged when
there is none. -/
def replaceFirst (pat : List PatElem) (repl : List Char) : List Char → List Char
  | [] =>
    match matchPat pat [] with
    | some _ => repl
    | none => []
  | c :: s =>
    match matchPat pat (c :: s) with
    | some n => repl ++ (c :: s).drop n
    | none => c :: replaceFirst pat repl s

/-- Fueled worker for the global replace.  Every pattern of the source starts
with a literal and therefore never matches zero characters; a `some 0` match
result is treated as no match, which is unreachable for those patterns.
Each step consumes at least one character, so `fuel = s.length` suffices. -/
def replaceAllFuel (pat : List PatElem) (repl : List Char) : Nat → List Char → List Char
  | _, [] => []
  | 0, s => s
  | fuel + 1, c :: s =>
    match matchPat pat (c :: s) with
    | some (n + 1) => repl ++ replaceAllFuel pat repl fuel (s.drop n)
    | _ => c :: replaceAllFuel pat repl fuel s

/-- JavaScript `string.replace(/pat/g, repl)`: replace all non-overlapping
matches, scanning left to right, never rescanning replaced text. -/
def replaceAll (pat : List PatElem) (repl : List Char) (s : List Char) : List Char :=
  replaceAllFuel pat repl s.length s

/-- Does the leftmost match of `pat` in `s` (when there is one) consist of
exactly the text `repl`?  Vacuously true when there is no match. -/
def firstMatchIs (pat : List PatElem) (repl : List Char) : List Char → Bool
  | [] =>
    match matchPat pat [] with
    | some _ => decide (repl = ([] : List Char))
    | none => true
  | c :: s =>
    match matchPat pat (c :: s) with
    | some n => decide ((c :: s).take n = repl)
    | none => firstMatchIs pat repl s

/-- Lift a literal word to a pattern. -/
def litPL (l : List Char) : List PatElem := l.map PatElem.lit

/-- Lift a literal string to a pattern. -/
def litP (s : String) : List PatElem := litPL s.data

/-- The pattern `provider\s*=\s*env\("DATABASE_PROVIDER"\)`. -/
def patProviderEnv : List PatElem :=
  litP "provider" ++ [PatElem.ws, PatElem.lit '=', PatElem.ws] ++ litP "env(\"DATABASE_PROVIDER\")"

/-- The pattern `provider\s*=\s*"(postgresql|sqlite)"`. -/
def patProviderLit : List PatElem :=
  litP "provider" ++ [PatElem.ws, PatElem.lit '=', PatElem.ws, PatElem.lit '"',
    PatElem.alt2 "postgresql".data "sqlite".data, PatElem.lit '"']

/-- Head of the `directUrl` pattern: `directUrl\s*=\s*`. -/
def patDirectHead : List PatElem :=
  litP "directUrl" ++ [PatElem.ws, PatElem.lit '=', PatElem.ws]

/-- The literal text `env("DIRECT_URL")`, the tail every `directUrl` match
ends with. -/
def envDirectRef : List Char := "env(\"DIRECT_URL\")".data

/-- The pattern `directUrl\s*=\s*env\("DIRECT_URL"\)`. -/
def patDirectUrl : List PatElem := patDirectHead ++ litPL envDirectRef

/-- The pattern `\n\s*directUrl\s*=\s*env\("DIRECT_URL"\)` (global, removal). -/
def patDirectUrlNl : List PatElem := PatElem.lit '\n' :: PatElem.ws :: patDirectUrl

/-- The replacement text `provider = "${provider}"`. -/
def provReplacement (provider : String) : List Char :=
  ("provider = \"" ++ provider ++ "\"").data

/-- The replacement text of the cloud branch, `directUrl = env("DIRECT_URL")`. -/
def directReplacement : List Char := "directUrl = env(\"DIRECT_URL\")".data

/-- The `generatedSchema` transformation of `generate-schema.cjs`: replace the
placeholder provider form, then any already-literal provider value, with the
resolved literal; then for postgresql rewrite the first `directUrl` assignment
to itself, and for sqlite remove every newline-prefixed `directUrl` assignment. -/
def generatedSchema (template : List Char) (provider : String) : List Char :=
  let s1 := replaceFirst patProviderEnv (provReplacement provider) template
  let s2 := replaceFirst patProviderLit (provReplacement provider) s1
  if provider = "postgresql" then replaceFirst patDirectUrl directReplacement s2
  else replaceAll patDirectUrlNl [] s2

/-- Outcome of an `execSync` call: normal exit, or a thrown error carrying
`error.status` (`none` when the status is unavailable, e.g. a signal). -/
inductive ExecOutcome where
  | ok
  | fail (status : Option Nat)

/-- Observable trace of one run of `prisma-env.cjs`: how many times each
child was spawned and the process exit code (0 = fell off the end). -/
structure RunTrace where
  schemaGenRuns : Nat
  commandRuns : Nat
  exitCode : Nat

/-- Top-level control flow of `prisma-env.cjs`: join the arguments into the
command string; exit 1 before spawning anything when it is empty; run the
schema-generation child, exiting 1 on its failure; then run the command,
exiting with `error.status || 1` on failure and 0 on success. -/
def runMain (args : List String) (schemaGen cmd : ExecOutcome) : RunTrace :=
  let command := String.intercalate " " args
  if command = "" then ⟨0, 0, 1⟩
  else
    match schemaGen with
    | ExecOutcome.fail _ => ⟨1, 0, 1⟩
    | ExecOutcome.ok =>
      match cmd with
      | ExecOutcome.ok => ⟨1, 1, 0⟩
      | ExecOutcome.fail (some n) => ⟨1, 1, if n = 0 then 1 else n⟩
      | ExecOutcome.fail none => ⟨1, 1, 1⟩

/-! ### Generic lemmas about the replace machinery -/

theorem matchPat_none_of_hasMatch_false {pat : List PatElem} :
    ∀ {s : List Char}, hasMatch pat s = false → ∀ j, matchPat pat (s.drop j) = none := by
  intro s
  induction s with
  | nil =>
    intro h j
    simp only [hasMatch, Option.not_isSome, Option.isNone_iff_eq_none] at h
    simpa using h
  | cons c s ih =>
    intro h j
    simp only [hasMatch, Bool.or_eq_false_iff] at h
    cases j with
    | zero =>
      simpa [Option.not_isSome, Option.isNone_iff_eq_none] using h.1
    | succ j => simpa using ih h.2 j

theorem hasMatch_exists {pat : List PatElem} :
    ∀ {s : List Char}, hasMatch pat s = true →
      ∃ j n, matchPat pat (s.drop j) = some n := by
  intro s
  induction s with
  | nil =>
    intro h
    simp only [hasMatch, Option.isSome_iff_exists] at h
    obtain ⟨n, hn⟩ := h
    exact ⟨0, n, by simpa using hn⟩
  | cons c s ih =>
    intro h
    simp only [hasMatch, Bool.or_eq_true] at h
    rcases h with h | h
    · obtain ⟨n, hn⟩ := Option.isSome_iff_exists.mp h
      exact ⟨0, n, by simpa using hn⟩
    · obtain ⟨j, n, hn⟩ := ih h
      exact ⟨j + 1, n, by simpa using hn⟩

theorem replaceFirst_of_hasMatch_false {pat : List PatElem} {repl : List Char} :
    ∀ {s : List Char}, hasMatch pat s = false → replaceFirst pat repl s = s := by
  intro s
  induction s with
  | nil =>
    intro h
    simp only [hasMatch, Option.not_isSome, Option.isNone_iff_eq_none] at h
    simp [replaceFirst, h]
  | cons c s ih =>
    intro h
    simp only [hasMatch, Bool.or_eq_false_iff, Option.not_isSome,
      Option.isNone_iff_eq_none] at h
    simp [replaceFirst, h.1, ih h.2]

theorem replaceAllFuel_of_hasMatch_false {pat : List PatElem} {repl : List Char} :
    ∀ (fuel : Nat) {s : List Char}, hasMatch pat s = false →
      replaceAllFuel pat repl fuel s = s := by
  intro fuel
  induction fuel with
  | zero =>
    intro s _
    cases s <;> simp [replaceAllFuel]
  | succ fuel ih =>
    intro s h
    cases s with
    | nil => simp [replaceAllFuel]
    | cons c s =>
      simp only [hasMatch, Bool.or_eq_false_iff, Option.not_isSome,
        Option.isNone_iff_eq_none] at h
      simp [replaceAllFuel, h.1, ih h.2]

theorem replaceAll_of_hasMatch_false {pat : List PatElem} {repl : List Char}
    {s : List Char} (h : hasMatch pat s = false) : replaceAll pat repl s = s :=
  replaceAllFuel_of_hasMatch_false _ h

theorem replaceFirst_of_firstMatchIs {pat : List PatElem} {repl : List Char} :
    ∀ {s : List Char}, firstMatchIs pat repl s = true → replaceFirst pat repl s = s := by
  intro s
  induction s with
  | nil =>
    intro h
    simp only [firstMatchIs] at h
    cases hm : matchPat pat [] with
    | none => simp [replaceFirst, hm]
    | some n =>
      rw [hm] at h
      simp only [decide_eq_true_eq] at h
      simp [replaceFirst, hm, h]
  | cons c s ih =>
    intro h
    simp only [firstMatchIs] at h
    cases hm : matchPat pat (c :: s) with
    | none =>
      rw [hm] at h
      simp [replaceFirst, hm, ih h]
    | some n =>
      rw [hm] at h
      simp only [decide_eq_true_eq] at h
      simp only [replaceFirst, hm]
      conv_rhs => rw [← List.take_append_drop n (c :: s)]
      rw [h]

theorem replaceFirst_spec {pat : List PatElem} (repl : List Char) :
    ∀ {s : List Char}, hasMatch pat s = true →
      ∃ i n, matchPat pat (s.drop i) = some n ∧
        replaceFirst pat repl s = s.take i ++ repl ++ s.drop (i + n) := by
  intro s
  induction s with
  | nil =>
    intro h
    simp only [hasMatch, Option.isSome_iff_exists] at h
    obtain ⟨n, hn⟩ := h
    exact ⟨0, n, by simpa using hn, by simp [replaceFirst, hn]⟩
  | cons c s ih =>
    intro h
    cases hm : matchPat pat (c :: s) with
    | some n =>
      refine ⟨0, n, by simpa using hm, ?_⟩
      simp [replaceFirst, hm]
    | none =>
      simp only [hasMatch, Bool.or_eq_true] at h
      rcases h with h | h
      · rw [hm] at h; simp at h
      · obtain ⟨i, n, hmatch, heq⟩ := ih h
        refine ⟨i + 1, n, by simpa using hmatch, ?_⟩
        simp only [replaceFirst, hm, heq]
        simp [List.take_succ_cons, List.drop_succ_cons, Nat.add_right_comm]

theorem repl_infix_replaceFirst {pat : List PatElem} {repl : List Char}
    {s : List Char} (h : hasMatch pat s = true) :
    repl <:+: replaceFirst pat repl s := by
  obtain ⟨i, n, _, heq⟩ := replaceFirst_spec repl h
  exact ⟨s.take i, s.drop (i + n), by rw [heq]⟩

theorem matchPat_append {ps1 ps2 : List PatElem} :
    ∀ {s : List Char} {n : Nat}, matchPat (ps1 ++ ps2) s = some n →
      ∃ k m, n = k + m ∧ matchPat ps2 (s.drop k) = some m := by
  induction ps1 with
  | nil =>
    intro s n h
    exact ⟨0, n, by omega, by simpa using h⟩
  | cons p ps1 ih =>
    intro s n h
    cases p with
    | lit c =>
      cases s with
      | nil => simp [matchPat] at h
      | cons d s =>
        simp only [List.cons_append, matchPat] at h
        by_cases hd : d = c
        · rw [if_pos hd] at h
          obtain ⟨n', hn', rfl⟩ := Option.map_eq_some'.mp h
          obtain ⟨k, m, rfl, hm⟩ := ih hn'
          exact ⟨k + 1, m, by omega, by simpa using hm⟩
        · rw [if_neg hd] at h; exact absurd h (by simp)
    | ws =>
      simp only [List.cons_append, matchPat] at h
      obtain ⟨n', hn', rfl⟩ := Option.map_eq_some'.mp h
      obtain ⟨k, m, rfl, hm⟩ := ih hn'
      refine ⟨wsCount s + k, m, by omega, ?_⟩
      rwa [List.drop_drop] at hm
    | alt2 a b =>
      simp only [List.cons_append, matchPat] at h
      by_cases ha : a.isPrefixOf s
      · rw [if_pos ha] at h
        obtain ⟨n', hn', rfl⟩ := Option.map_eq_some'.mp h
        obtain ⟨k, m, rfl, hm⟩ := ih hn'
        refine ⟨a.length + k, m, by omega, ?_⟩
        rwa [List.drop_drop] at hm
      · rw [if_neg ha] at h
        by_cases hb : b.isPrefixOf s
        · rw [if_pos hb] at h
          obtain ⟨n', hn', rfl⟩ := Option.map_eq_some'.mp h
          obtain ⟨k, m, rfl, hm⟩ := ih hn'
          refine ⟨b.length + k, m, by omega, ?_⟩
          rwa [List.drop_drop] at hm
        · rw [if_neg hb] at h; exact absurd h (by simp)

theorem matchPat_litPL {w : List Char} :
    ∀ {s : List Char} {n : Nat}, matchPat (litPL w) s = some n →
      n = w.length ∧ s.take w.length = w := by
  induction w with
  | nil =>
    intro s n h
    simp only [litPL, List.map_nil, matchPat, Option.some_inj] at h
    simp [← h]
  | cons c w ih =>
    intro s n h
    cases s with
    | nil => simp [litPL, matchPat] at h
    | cons d s =>
      simp only [litPL, List.map_cons, matchPat] at h
      by_cases hd : d = c
      · rw [if_pos hd] at h
        obtain ⟨n', hn', rfl⟩ := Option.map_eq_some'.mp h
        obtain ⟨rfl, htake⟩ := ih hn'
        subst hd
        simp [htake]
      · rw [if_neg hd] at h; exact absurd h (by simp)

/-! ### Infix helpers -/

theorem infix_iff_drop_take {w l : List Char} :
    w <:+: l ↔ ∃ i, (l.drop i).take w.length = w := by
  constructor
  · rintro ⟨s, t, rfl⟩
    refine ⟨s.length, ?_⟩
    rw [List.append_assoc, List.drop_left, List.take_left]
  · rintro ⟨i, h⟩
    refine ⟨l.take i, (l.drop i).drop w.length, ?_⟩
    conv_rhs => rw [← List.take_append_drop i l]
    rw [List.append_assoc]
    congr 1
    conv_rhs => rw [← List.take_append_drop w.length (l.drop i)]
    rw [h]

theorem infix_of_infix_take {w l : List Char} {i : Nat} (h : w <:+: l.take i) : w <:+: l := by
  obtain ⟨a, b, hab⟩ := h
  refine ⟨a, b ++ l.drop i, ?_⟩
  conv_rhs => rw [← List.take_append_drop i l, ← hab]
  simp [List.append_assoc]

theorem infix_of_infix_drop {w l : List Char} {i : Nat} (h : w <:+: l.drop i) : w <:+: l := by
  obtain ⟨a, b, hab⟩ := h
  refine ⟨l.take i ++ a, b, ?_⟩
  conv_rhs => rw [← List.take_append_drop i l, ← hab]
  simp [List.append_assoc]

/-- Where an occurrence of `w` can sit inside `u ++ r ++ v`: inside one of the
three parts, or straddling a boundary of the middle part, in which case a
nonempty edge of `r` is a proper edge of `w`, or `r` is properly contained in
`w`. -/
theorem infix_of_append3 {w u r v : List Char} (h : w <:+: (u ++ r ++ v)) :
    w <:+: u ∨ w <:+: v ∨ w <:+: r ∨ r <:+: w ∨
    (∃ k, 0 < k ∧ k ≤ r.length ∧ r.take k <:+ w ∧ k < w.length) ∨
    (∃ m, m < r.length ∧ r.drop m <+: w ∧ r.length - m < w.length) := by
  rw [infix_iff_drop_take] at h
  obtain ⟨i, h⟩ := h
  rw [List.append_assoc] at h
  by_cases hiu : i + w.length ≤ u.length
  · left
    rw [infix_iff_drop_take]
    refine ⟨i, ?_⟩
    have hd : List.drop i (u ++ (r ++ v)) = u.drop i ++ (r ++ v) := by
      rw [List.drop_append_eq_append_drop]
      have h0 : i - u.length = 0 := by omega
      rw [h0, List.drop_zero]
    rw [hd, List.take_append_eq_append_take] at h
    have h1 : w.length - (u.drop i).length = 0 := by rw [List.length_drop]; omega
    rw [h1, List.take_zero, List.append_nil] at h
    exact h
  · by_cases hi : i < u.length
    · have hd : List.drop i (u ++ (r ++ v)) = u.drop i ++ (r ++ v) := by
        rw [List.drop_append_eq_append_drop]
        have h0 : i - u.length = 0 := by omega
        rw [h0, List.drop_zero]
      rw [hd, List.take_append_eq_append_take] at h
      have h1 : List.take w.length (u.drop i) = u.drop i :=
        List.take_of_length_le (by rw [List.length_drop]; omega)
      rw [h1, List.length_drop] at h
      by_cases hkr : w.length - (u.length - i) ≤ r.length
      · rw [List.take_append_eq_append_take] at h
        have h2 : w.length - (u.length - i) - r.length = 0 := by omega
        rw [h2, List.take_zero, List.append_nil] at h
        have hlw : (u.length - i) + min (w.length - (u.length - i)) r.length = w.length := by
          conv_rhs => rw [← h]
          simp [List.length_append, List.length_drop, List.length_take]
        rw [Nat.min_eq_left hkr] at hlw
        refine Or.inr (Or.inr (Or.inr (Or.inr (Or.inl
          ⟨w.length - (u.length - i), by omega, hkr, ⟨u.drop i, h⟩, by omega⟩))))
      · have h2 : List.take (w.length - (u.length - i)) r = r :=
          List.take_of_length_le (by omega)
        rw [List.take_append_eq_append_take, h2] at h
        refine Or.inr (Or.inr (Or.inr (Or.inl
          ⟨u.drop i, List.take (w.length - (u.length - i) - r.length) v, ?_⟩)))
        rw [← List.append_assoc] at h
        exact h
    · have hd : List.drop i (u ++ (r ++ v)) = List.drop (i - u.length) (r ++ v) := by
        rw [List.drop_append_eq_append_drop]
        have h0 : u.drop i = [] := List.drop_eq_nil_of_le (by omega)
        rw [h0, List.nil_append]
      rw [hd] at h
      by_cases hjr : r.length ≤ i - u.length
      · have hd2 : List.drop (i - u.length) (r ++ v) =
            List.drop (i - u.length - r.length) v := by
          rw [List.drop_append_eq_append_drop]
          have h0 : r.drop (i - u.length) = [] := List.drop_eq_nil_of_le hjr
          rw [h0, List.nil_append]
        rw [hd2] at h
        exact Or.inr (Or.inl (infix_iff_drop_take.mpr ⟨i - u.length - r.length, h⟩))
      · have hd2 : List.drop (i - u.length) (r ++ v) = r.drop (i - u.length) ++ v := by
          rw [List.drop_append_eq_append_drop]
          have h0 : i - u.length - r.length = 0 := by omega
          rw [h0, List.drop_zero]
        rw [hd2, List.take_append_eq_append_take] at h
        by_cases hjw : (i - u.length) + w.length ≤ r.length
        · have h1 : w.length - (r.drop (i - u.length)).length = 0 := by
            rw [List.length_drop]; omega
          rw [h1, List.take_zero, List.append_nil] at h
          exact Or.inr (Or.inr (Or.inl (infix_iff_drop_take.mpr ⟨i - u.length, h⟩)))
        · have h1 : List.take w.length (r.drop (i - u.length)) = r.drop (i - u.length) :=
            List.take_of_length_le (by rw [List.length_drop]; omega)
          rw [h1, List.length_drop] at h
          exact Or.inr (Or.inr (Or.inr (Or.inr (Or.inr
            ⟨i - u.length, by omega, ⟨_, h⟩, by omega⟩))))

/-- Replacement text `r` cannot splice a new occurrence of `w` into a string:
`w` does not contain `r` or sit inside it, no nonempty short head of `r` is a
proper tail of `w`, and no nonempty short tail of `r` is a proper head of `w`. -/
def SpliceFree (w r : List Char) : Prop :=
  (¬ r <:+: w) ∧ (¬ w <:+: r) ∧
  (∀ k, k < r.length + 1 → 0 < k → k < w.length → ¬ r.take k <:+ w) ∧
  (∀ m, m < r.length → r.length - m < w.length → ¬ r.drop m <+: w)

/-- Replacing any segment of `s` by a splice-free `r` cannot create an
occurrence of `w` where `s` had none. -/
theorem not_infix_of_spliceFree {w r s : List Char} {i n : Nat}
    (hs : ¬ w <:+: s) (hf : SpliceFree w r) :
    ¬ w <:+: (s.take i ++ r ++ s.drop (i + n)) := by
  intro hinf
  rcases infix_of_append3 hinf with h | h | h | h | h | h
  · exact hs (infix_of_infix_take h)
  · exact hs (infix_of_infix_drop h)
  · exact hf.2.1 h
  · exact hf.1 h
  · obtain ⟨k, hk0, hkr, hsuf, hkw⟩ := h
    exact hf.2.2.1 k (by omega) hk0 hkw hsuf
  · obtain ⟨m, hm, hpre, hmw⟩ := h
    exact hf.2.2.2 m hm hmw hpre

/-- Every match of the `directUrl` pattern ends with the literal text
`env("DIRECT_URL")`, so a string with a match contains that text. -/
theorem envDirectRef_infix_of_hasMatch {s : List Char}
    (h : hasMatch patDirectUrl s = true) : envDirectRef <:+: s := by
  obtain ⟨j, n, hm⟩ := hasMatch_exists h
  rw [patDirectUrl] at hm
  obtain ⟨k, m, _, hm2⟩ := matchPat_append hm
  obtain ⟨_, htake⟩ := matchPat_litPL hm2
  rw [List.drop_drop] at hm2 htake
  exact infix_of_infix_drop (l := s) (i := j + k)
    (infix_iff_drop_take.mpr ⟨0, by simpa using htake⟩)

/-- Contrapositive form: no occurrence of `env("DIRECT_URL")` means no match
of the `directUrl` pattern. -/
theorem hasMatch_patDirectUrl_eq_false {s : List Char}
    (h : ¬ envDirectRef <:+: s) : hasMatch patDirectUrl s = false := by
  cases hm : hasMatch patDirectUrl s with
  | false => rfl
  | true => exact absurd (envDirectRef_infix_of_hasMatch hm) h

/-! ### Environment lookup helpers -/

theorem setEnv_same (env : EnvMap) (k v : String) : (setEnv env k v) k = some v := by
  simp [setEnv]

theorem setEnv_other (env : EnvMap) (k v k' : String) (h : k' ≠ k) :
    (setEnv env k v) k' = env k' := by
  simp [setEnv, h]

theorem file_url_truthy (t : String) : truthy (some ("file:" ++ t)) = true := by
  simp only [truthy, Bool.not_eq_true']
  rw [beq_eq_false_iff_ne]
  intro h
  have hd2 : "file:".data ++ t.data = [] := congrArg String.data h
  simp at hd2

/-- C3: the provider classification returns "postgresql" exactly when the URL
is present and starts with `postgresql://`, and every input yields one of the
two provider literals (so every other input yields "sqlite"). -/
theorem provider_classification (url : Option String) :
    (PrismaEnv.getDatabaseProvider url = "postgresql" ↔
      ∃ u, url = some u ∧ jsStartsWith u "postgresql://" = true) ∧
    (PrismaEnv.getDatabaseProvider url = "postgresql" ∨
      PrismaEnv.getDatabaseProvider url = "sqlite") := by
  cases url with
  | none =>
    refine ⟨?_, Or.inr rfl⟩
    simp [PrismaEnv.getDatabaseProvider]
  | some u =>
    simp only [PrismaEnv.getDatabaseProvider, Option.some.injEq, exists_eq_left']
    by_cases hu : u = ""
    · subst hu
      rw [if_pos rfl]
      exact ⟨⟨fun h => absurd h (by decide), fun h => absurd h (by decide)⟩, Or.inr rfl⟩
    · rw [if_neg hu]
      by_cases hs : jsStartsWith u "postgresql://" = true
      · simp [hs]
      · simp only [Bool.not_eq_true] at hs
        simp [hs]

/-- C9: the duplicated provider detectors agree: the two `getDatabaseProvider`
copies are extensionally equal, and `isCloudMode` is truthy exactly when they
classify the URL as "postgresql". -/
theorem provider_detectors_agree (url : Option String) :
    GenerateSchema.getDatabaseProvider url = PrismaEnv.getDatabaseProvider url ∧
    (Postinstall.isCloudMode url = true ↔
      PrismaEnv.getDatabaseProvider url = "postgresql") := by
  refine ⟨rfl, ?_⟩
  cases url with
  | none => simp [Postinstall.isCloudMode, PrismaEnv.getDatabaseProvider]
  | some u =>
    by_cases hu : u = ""
    · subst hu
      simp [Postinstall.isCloudMode, PrismaEnv.getDatabaseProvider]
    · simp only [Postinstall.isCloudMode, PrismaEnv.getDatabaseProvider, if_neg hu]
      by_cases hs : jsStartsWith u "postgresql://" = true
      · simp [hs]
      · simp only [Bool.not_eq_true] at hs
        simp [hs]

/-- C7: an empty command string makes the runner exit with code 1 before
spawning either child process. -/
theorem runMain_empty_command (args : List String) (schemaGen cmd : ExecOutcome)
    (h : String.intercalate " " args = "") :
    (runMain args schemaGen cmd).exitCode = 1 ∧
    (runMain args schemaGen cmd).schemaGenRuns = 0 ∧
    (runMain args schemaGen cmd).commandRuns = 0 := by
  simp [runMain, h]

/-- C7 witness: the runner invoked with no arguments. -/
theorem runMain_empty_command_witness :
    String.intercalate " " ([] : List String) = "" ∧
    (runMain [] ExecOutcome.ok ExecOutcome.ok).exitCode = 1 ∧
    (runMain [] ExecOutcome.ok ExecOutcome.ok).schemaGenRuns = 0 ∧
    (runMain [] ExecOutcome.ok ExecOutcome.ok).commandRuns = 0 :=
  ⟨rfl, runMain_empty_command [] ExecOutcome.ok ExecOutcome.ok rfl⟩

/-- C8: when the external command runs (non-empty command, schema generation
succeeded) the runner's exit code is the child's: 0 on success, the child's
non-zero status on failure, the generic code 1 when the status is unavailable;
the command child is spawned exactly once in every case. -/
theorem runMain_propagates_exit (args : List String)
    (h : String.intercalate " " args ≠ "") :
    (runMain args ExecOutcome.ok ExecOutcome.ok).exitCode = 0 ∧
    (runMain args ExecOutcome.ok ExecOutcome.ok).commandRuns = 1 ∧
    (∀ n, n ≠ 0 →
      (runMain args ExecOutcome.ok (ExecOutcome.fail (some n))).exitCode = n ∧
      (runMain args ExecOutcome.ok (ExecOutcome.fail (some n))).commandRuns = 1) ∧
    (runMain args ExecOutcome.ok (ExecOutcome.fail none)).exitCode = 1 ∧
    (runMain args ExecOutcome.ok (ExecOutcome.fail none)).commandRuns = 1 := by
  refine ⟨?_, ?_, ?_, ?_, ?_⟩ <;> simp [runMain, h]
  intro n hn
  simp [hn]

/-- C8 witness: the runner invoked with the single argument "true". -/
theorem runMain_propagates_exit_witness :
    String.intercalate " " ["true"] ≠ "" ∧
    (runMain ["true"] ExecOutcome.ok (ExecOutcome.fail (some 7))).exitCode = 7 :=
  ⟨by decide, ((runMain_propagates_exit ["true"] (by decide)).2.2.1 7 (by decide)).1⟩

/-- C6: with no primary connection string, generic-Unix platform and home
`/home/u`, configuration resolves the embedded path ending in
`.config/OnlyLabs/database/dev.db`, sets `DATABASE_URL` to the corresponding
`file:` URL, and classifies the provider as "sqlite". -/
theorem scenarioA_embedded_default :
    (configureDatabaseEnv Platform.generic "/home/u" (fun _ => none)) "DATABASE_URL" =
      some "file:/home/u/.config/OnlyLabs/database/dev.db" ∧
    ".config/OnlyLabs/database/dev.db".data <:+
      (joinPath (getDatabaseDirectory Platform.generic "/home/u" none) "dev.db").data ∧
    (configureDatabaseEnv Platform.generic "/home/u" (fun _ => none)) "DATABASE_PROVIDER" =
      some "sqlite" ∧
    PrismaEnv.getDatabaseProvider
      ((configureDatabaseEnv Platform.generic "/home/u" (fun _ => none)) "DATABASE_URL") =
      "sqlite" := by
  refine ⟨by decide, by decide, by decide, by decide⟩

theorem file_url_ne_empty (t : String) : "file:" ++ t ≠ "" := by
  intro h
  have hd2 : "file:".data ++ t.data = [] := congrArg String.data h
  simp at hd2

/-- C5: after configuration the primary connection string is truthy, the
provider variable holds the classification of the (final) primary connection
string, and the secondary connection string is present exactly when the
provider is "postgresql" or it was present beforehand. -/
theorem configure_invariant (platform : Platform) (home : String) (env : EnvMap) :
    truthy ((configureDatabaseEnv platform home env) "DATABASE_URL") = true ∧
    (configureDatabaseEnv platform home env) "DATABASE_PROVIDER" =
      some (PrismaEnv.getDatabaseProvider
        ((configureDatabaseEnv platform home env) "DATABASE_URL")) ∧
    (((configureDatabaseEnv platform home env) "DIRECT_URL").isSome = true ↔
      (PrismaEnv.getDatabaseProvider
          ((configureDatabaseEnv platform home env) "DATABASE_URL") = "postgresql" ∨
        (env "DIRECT_URL").isSome = true)) := by
  simp only [configureDatabaseEnv]
  split_ifs with h1 h2 h3 <;>
    simp_all [setEnv, truthy, file_url_ne_empty] <;>
    (intro hp
     cases hDU : env "DIRECT_URL" with
     | none => simp_all
     | some s => simp [hDU])

/-! ### EnvLoader preservation -/

theorem processLine_preserves {env : EnvMap} {k v : String} (line : List Char)
    (hk : env k = some v) (hv : v ≠ "") : (processLine env line) k = some v := by
  unfold processLine
  cases hp : parseLine line with
  | none => exact hk
  | some kv =>
    show (if truthy (env kv.1) = true then env else setEnv env kv.1 kv.2) k = some v
    by_cases ht : truthy (env kv.1) = true
    · rw [if_pos ht]; exact hk
    · rw [if_neg ht]
      by_cases hkk : k = kv.1
      · subst hkk
        rw [hk] at ht
        simp [truthy, hv] at ht
      · rw [setEnv_other _ _ _ _ hkk]
        exact hk

theorem foldl_processLine_preserves {k v : String} (hv : v ≠ "") :
    ∀ (lines : List (List Char)) (env : EnvMap), env k = some v →
      (lines.foldl processLine env) k = some v := by
  intro lines
  induction lines with
  | nil => intro env hk; exact hk
  | cons l ls ih =>
    intro env hk
    exact ih _ (processLine_preserves l hk hv)

/-- C4 counterexample: a variable pre-set to the empty string is overwritten
by the loader, so "never overwrites a pre-existing variable" fails as stated. -/
theorem loadEnvFile_overwrites_empty_counterexample :
    (fun s => if s = "DB" then some "" else none : EnvMap) "DB" = some "" ∧
    (loadEnvFile "DB=x".data (fun s => if s = "DB" then some "" else none)) "DB" =
      some "x" ∧
    (loadEnvFile "DB=x".data (fun s => if s = "DB" then some "" else none)) "DB" ≠
      (fun s => if s = "DB" then some "" else none : EnvMap) "DB" := by
  refine ⟨by decide, by decide, by decide⟩

/-- C4 amended: the loader never overwrites a pre-existing environment
variable whose value is non-empty (truthy); only absent or empty-valued
variables can be set, whatever the file contents. -/
theorem loadEnvFile_preserves_truthy (content : List Char) (env : EnvMap)
    (k v : String) (hk : env k = some v) (hv : v ≠ "") :
    (loadEnvFile content env) k = some v :=
  foldl_processLine_preserves hv (splitLines content) env hk

/-- C4 amended witness: a non-empty pre-set value survives a file that
redefines the same key. -/
theorem loadEnvFile_preserves_truthy_witness :
    (fun s => if s = "DB" then some "kept" else none : EnvMap) "DB" = some "kept" ∧
    ("kept" : String) ≠ "" ∧
    (loadEnvFile "DB=other".data (fun s => if s = "DB" then some "kept" else none)) "DB" =
      some "kept" :=
  ⟨rfl, by decide,
    loadEnvFile_preserves_truthy "DB=other".data _ "DB" "kept" rfl (by decide)⟩

/-- C10: a key present with the empty-string value is falsy, so a file line
assigning that key replaces the empty value with the file's parsed value. -/
theorem loadEnvFile_sets_empty (line : List Char) (env : EnvMap) (k v : String)
    (hnl : Char.ofNat 10 ∉ line) (hp : parseLine line = some (k, v))
    (hk : env k = some "") :
    (loadEnvFile line env) k = some v := by
  have hsplit : splitLines line = [line] := by
    have aux : ∀ (l acc : List Char), Char.ofNat 10 ∉ l →
        splitLinesAux acc l = [acc.reverse ++ l] := by
      intro l
      induction l with
      | nil => intro acc _; simp [splitLinesAux]
      | cons c cs ih =>
        intro acc hmem
        simp only [List.mem_cons, not_or] at hmem
        have hc : ¬ c = '\n' := by
          intro hc
          exact hmem.1 (by rw [hc])
        simp only [splitLinesAux, if_neg hc]
        rw [ih (c :: acc) hmem.2]
        simp
    rw [splitLines, aux line [] hnl]
    simp
  rw [loadEnvFile, hsplit]
  simp only [List.foldl_cons, List.foldl_nil]
  unfold processLine
  rw [hp]
  have ht : truthy (env k) = false := by rw [hk]; rfl
  show (if truthy (env k) = true then env else setEnv env k v) k = some v
  rw [if_neg (by simp [ht])]
  exact setEnv_same env k v

/-- C10 witness: `DB` pre-set to the empty string, file line `DB=x`. -/
theorem loadEnvFile_sets_empty_witness :
    Char.ofNat 10 ∉ "DB=x".data ∧
    parseLine "DB=x".data = some ("DB", "x") ∧
    (fun s => if s = "DB" then some "" else none : EnvMap) "DB" = some "" ∧
    (loadEnvFile "DB=x".data (fun s => if s = "DB" then some "" else none)) "DB" =
      some "x" :=
  ⟨by decide, by decide, rfl,
    loadEnvFile_sets_empty "DB=x".data _ "DB" "x" (by decide) (by decide) rfl⟩

/-! ### Schema generation claims -/

/-- Unfolded form of `generatedSchema`. -/
theorem generatedSchema_eq (t : List Char) (p : String) :
    generatedSchema t p =
      (if p = "postgresql" then
        replaceFirst patDirectUrl directReplacement
          (replaceFirst patProviderLit (provReplacement p)
            (replaceFirst patProviderEnv (provReplacement p) t))
      else
        replaceAll patDirectUrlNl []
          (replaceFirst patProviderLit (provReplacement p)
            (replaceFirst patProviderEnv (provReplacement p) t))) := rfl

/-- The canonical schema template: placeholder provider line, url line, and
secondary-connection (`directUrl`) line. -/
def canonicalTemplate : List Char :=
  "provider = env(\"DATABASE_PROVIDER\")\nurl = env(\"DATABASE_URL\")\ndirectUrl = env(\"DIRECT_URL\")".data

/-- A template in which the placeholder provider form occurs twice. -/
def doubleTemplate : List Char :=
  "provider = env(\"DATABASE_PROVIDER\") provider = env(\"DATABASE_PROVIDER\")".data

/-- The replacement text of the networked provider is splice-free with respect
to the secondary-connection reference text. -/
theorem spliceFree_envDirectRef_pg : SpliceFree envDirectRef (provReplacement "postgresql") := by
  refine ⟨by decide, by decide, ?_, ?_⟩ <;> decide

/-- C2 counterexample: with two placeholder occurrences the first run rewrites
only the first one, so a second run changes the output again — `generate` is
not idempotent for every template text. -/
theorem generate_not_idempotent_counterexample :
    generatedSchema doubleTemplate "sqlite" =
      "provider = \"sqlite\" provider = env(\"DATABASE_PROVIDER\")".data ∧
    generatedSchema (generatedSchema doubleTemplate "sqlite") "sqlite" =
      "provider = \"sqlite\" provider = \"sqlite\"".data ∧
    generatedSchema (generatedSchema doubleTemplate "sqlite") "sqlite" ≠
      generatedSchema doubleTemplate "sqlite" := by
  refine ⟨by decide, by decide, by decide⟩

/-- C2 amended: `generate` is idempotent on every template whose first run
fully resolves it: no residual placeholder remains, the first literal provider
assignment is exactly the canonical replacement text, and (networked) the
first secondary assignment is canonical / (embedded) no removable secondary
line remains. -/
theorem generate_idempotent_amended (T : List Char) (p : String)
    (hdi : p = "postgresql" ∨ p = "sqlite")
    (h1 : hasMatch patProviderEnv (generatedSchema T p) = false)
    (h2 : firstMatchIs patProviderLit (provReplacement p) (generatedSchema T p) = true)
    (h3 : p = "postgresql" →
      firstMatchIs patDirectUrl directReplacement (generatedSchema T p) = true)
    (h4 : p = "sqlite" → hasMatch patDirectUrlNl (generatedSchema T p) = false) :
    generatedSchema (generatedSchema T p) p = generatedSchema T p := by
  set s1 := generatedSchema T p with hs1
  have e1 : replaceFirst patProviderEnv (provReplacement p) s1 = s1 :=
    replaceFirst_of_hasMatch_false h1
  have e2 : replaceFirst patProviderLit (provReplacement p) s1 = s1 :=
    replaceFirst_of_firstMatchIs h2
  rcases hdi with hp | hp
  · subst hp
    have e3 : replaceFirst patDirectUrl directReplacement s1 = s1 :=
      replaceFirst_of_firstMatchIs (h3 rfl)
    rw [generatedSchema_eq, if_pos rfl, e1, e2, e3]
  · subst hp
    have e4 : replaceAll patDirectUrlNl [] s1 = s1 :=
      replaceAll_of_hasMatch_false (h4 rfl)
    rw [generatedSchema_eq, if_neg (by decide), e1, e2, e4]

/-- C2 amended witness: the canonical template with the embedded provider. -/
theorem generate_idempotent_amended_witness :
    hasMatch patProviderEnv (generatedSchema canonicalTemplate "sqlite") = false ∧
    firstMatchIs patProviderLit (provReplacement "sqlite")
      (generatedSchema canonicalTemplate "sqlite") = true ∧
    hasMatch patDirectUrlNl (generatedSchema canonicalTemplate "sqlite") = false ∧
    generatedSchema (generatedSchema canonicalTemplate "sqlite") "sqlite" =
      generatedSchema canonicalTemplate "sqlite" :=
  ⟨by decide, by decide, by decide,
    generate_idempotent_amended canonicalTemplate "sqlite" (Or.inr rfl) (by decide)
      (by decide) (fun h => absurd h (by decide)) (fun _ => by decide)⟩

/-- C1 counterexample: the canonical template contains the placeholder form
and the secondary-connection line, yet `generate(·,"embedded")` followed by
`generate(·,"networked")` yields a template whose provider literal is
"postgresql" but whose secondary-connection field is absent — the networked
run does not re-insert the removed line, and the claimed invariant
"secondary present iff networked" fails after that run. -/
theorem roundTrip_counterexample :
    hasMatch patProviderEnv canonicalTemplate = true ∧
    hasMatch patDirectUrl canonicalTemplate = true ∧
    generatedSchema (generatedSchema canonicalTemplate "sqlite") "postgresql" =
      "provider = \"postgresql\"\nurl = env(\"DATABASE_URL\")".data ∧
    hasMatch patDirectUrl
      (generatedSchema (generatedSchema canonicalTemplate "sqlite") "postgresql") = false := by
  refine ⟨by decide, by decide, by decide, by decide⟩

/-- C1 amended: when the embedded run fully resolves the template (no residual
placeholder, a literal provider assignment present, and no occurrence of the
secondary-connection reference left), the subsequent networked run produces
the networked provider literal but leaves the secondary-connection field
absent: nothing in the networked branch can re-create the removed field. -/
theorem roundTrip_amended (T : List Char)
    (h1 : hasMatch patProviderEnv (generatedSchema T "sqlite") = false)
    (h2 : hasMatch patProviderLit (generatedSchema T "sqlite") = true)
    (h3 : ¬ envDirectRef <:+: generatedSchema T "sqlite") :
    provReplacement "postgresql" <:+:
      generatedSchema (generatedSchema T "sqlite") "postgresql" ∧
    ¬ envDirectRef <:+:
      generatedSchema (generatedSchema T "sqlite") "postgresql" ∧
    hasMatch patDirectUrl
      (generatedSchema (generatedSchema T "sqlite") "postgresql") = false := by
  set s1 := generatedSchema T "sqlite" with hs1
  have e1 : replaceFirst patProviderEnv (provReplacement "postgresql") s1 = s1 :=
    replaceFirst_of_hasMatch_false h1
  obtain ⟨i, n, hm, heq⟩ :=
    replaceFirst_spec (provReplacement "postgresql") h2
  have hpg : provReplacement "postgresql" <:+:
      replaceFirst patProviderLit (provReplacement "postgresql") s1 :=
    repl_infix_replaceFirst h2
  have hno : ¬ envDirectRef <:+:
      replaceFirst patProviderLit (provReplacement "postgresql") s1 := by
    rw [heq]
    exact not_infix_of_spliceFree h3 spliceFree_envDirectRef_pg
  have hnm : hasMatch patDirectUrl
      (replaceFirst patProviderLit (provReplacement "postgresql") s1) = false :=
    hasMatch_patDirectUrl_eq_false hno
  have e3 : replaceFirst patDirectUrl directReplacement
      (replaceFirst patProviderLit (provReplacement "postgresql") s1) =
      replaceFirst patProviderLit (provReplacement "postgresql") s1 :=
    replaceFirst_of_hasMatch_false hnm
  have hout : generatedSchema s1 "postgresql" =
      replaceFirst patProviderLit (provReplacement "postgresql") s1 := by
    rw [generatedSchema_eq, if_pos rfl, e1, e3]
  rw [hout]
  exact ⟨hpg, hno, hnm⟩

/-- C1 amended witness: the canonical template. -/
theorem roundTrip_amended_witness :
    hasMatch patProviderEnv (generatedSchema canonicalTemplate "sqlite") = false ∧
    hasMatch patProviderLit (generatedSchema canonicalTemplate "sqlite") = true ∧
    (¬ envDirectRef <:+: generatedSchema canonicalTemplate "sqlite") ∧
    provReplacement "postgresql" <:+:
      generatedSchema (generatedSchema canonicalTemplate "sqlite") "postgresql" ∧
    ¬ envDirectRef <:+:
      generatedSchema (generatedSchema canonicalTemplate "sqlite") "postgresql" :=
  ⟨by decide, by decide, by decide,
    (roundTrip_amended canonicalTemplate (by decide) (by decide) (by decide)).1,
    (roundTrip_amended canonicalTemplate (by decide) (by decide) (by decide)).2.1⟩
